import Mathlib

/-
  Verification development for the Algo-Trading repository.

  Shallow embedding of:
  - scripts/backtest.py   : the SmaTargetStopStrategy order/position state
                            machine, load_data, and the win-probability
                            summary computation;
  - scripts/historical_data_fetch.py : the 30-day chunk generation loop,
                            the fetch-with-retry helper, the per-chunk
                            normalization, and the missing-range
                            bookkeeping of the main loop;
  - scripts/main.py       : the DateTime split/extract normalization
                            (identical to the one in
                            historical_data_fetch.py).

  Prices, indicator values and API numbers are modelled as rationals;
  calendar days are modelled as day numbers (naturals), with
  datetime(start_year,1,1) mapped to a day number and timedelta(days=30)
  mapped to +30; provider strings are modelled as lists of characters.
-/

namespace AlgoTrading

/-- Side of a backtrader order: `self.buy()` produces a buy order,
`self.sell()` a sell order (`order.isbuy()` / `order.issell()`). -/
inductive OrderSide
  | buy
  | sell
deriving DecidableEq, Repr

/-- Backtrader order statuses that `notify_order` can observe.  The
source only reacts to `Completed`. -/
inductive OrderStatus
  | Submitted
  | Accepted
  | Partial
  | Completed
  | Canceled
  | Expired
  | Margin
  | Rejected
deriving DecidableEq, Repr

/-- Strategy parameters of `SmaTargetStopStrategy.params`:
`target` (profit target fraction), `stop_loss` (stop-loss fraction),
`short_window` and `long_window` (SMA periods, unused by the per-bar
order logic itself). -/
structure StratParams where
  target : ℚ
  stop_loss : ℚ
  short_window : ℕ
  long_window : ℕ
deriving DecidableEq, Repr

/-- The strategy's mutable state together with the broker position it
reads: `order` is `self.order` (the pending-order marker, `None` when no
order is outstanding), `entry_price` is `self.entry_price` (`None`
initially), `position` is the signed size `self.position.size` of the
single broker position (`0` = flat, positive = long, negative =
short). -/
structure StratState where
  order : Option OrderSide
  entry_price : Option ℚ
  position : ℤ
deriving DecidableEq, Repr

/-- Initial state set in `SmaTargetStopStrategy.__init__`:
`self.order = None`, `self.entry_price = None`, and the broker starts
flat. -/
def initState : StratState :=
  { order := none, entry_price := none, position := 0 }

/-- `SmaTargetStopStrategy.notify_order` (backtest.py lines 49-62):
only a `Completed` status has any effect; for a completed buy or a
completed sell it sets `self.entry_price = order.executed.price` and
then resets `self.order = None`.  Any other status leaves the state
untouched. -/
def notify_order (s : StratState) (side : OrderSide) (status : OrderStatus)
    (execPrice : ℚ) : StratState :=
  if status = OrderStatus.Completed then
    match side with
    | OrderSide.buy =>
        { s with entry_price := some execPrice, order := none }
    | OrderSide.sell =>
        { s with entry_price := some execPrice, order := none }
  else s

/-- Broker fill processing around the strategy callback, as the
(external) backtrader broker performs it in a replay: a completed buy
of executed size `qty` increases the net position by `qty`, a completed
sell decreases it by `qty`; the broker then delivers the `Completed`
notification to the strategy's `notify_order`.  Only the final
`notify_order` step is code of this repository. -/
def onFill (s : StratState) (side : OrderSide) (qty : ℤ) (price : ℚ) :
    StratState :=
  let posAfter :=
    s.position + (match side with
      | OrderSide.buy => qty
      | OrderSide.sell => -qty)
  notify_order { s with position := posAfter } side OrderStatus.Completed price

/-- One order submission made by `next`, tagged by the branch (and log
line) it came from. -/
inductive Submission
  | buyEntry
  | sellEntry
  | sellProfitExit
  | sellStopExit
  | buyProfitExit
  | buyStopExit
deriving DecidableEq, Repr

/-- Python truthiness of `self.entry_price`: falsy when `None` and when
equal to `0.0`. -/
def entryTruthy : Option ℚ → Bool
  | none => false
  | some e => e != 0

/-- The long-exit block of `next` (backtest.py lines 93-102): guarded by
`self.position.size > 0 and self.entry_price`; first the profit-target
comparison `current_price >= entry * (1 + target)`, then (elif) the
stop-loss comparison `current_price <= entry * (1 - stop_loss)`; each
taken branch stores a sell order in `self.order`. -/
def longExitStep (p : StratParams) (s : StratState) (close : ℚ) :
    StratState × List Submission :=
  if 0 < s.position ∧ entryTruthy s.entry_price then
    let e := s.entry_price.getD 0
    if e * (1 + p.target) ≤ close then
      ({ s with order := some OrderSide.sell }, [Submission.sellProfitExit])
    else if close ≤ e * (1 - p.stop_loss) then
      ({ s with order := some OrderSide.sell }, [Submission.sellStopExit])
    else (s, [])
  else (s, [])

/-- The short-exit block of `next` (backtest.py lines 104-113): guarded
by `self.position.size < 0 and self.entry_price`; first the
profit-target comparison `current_price <= entry * (1 - target)`, then
(elif) the stop-loss comparison `current_price >= entry * (1 +
stop_loss)`; each taken branch stores a buy order in `self.order`. -/
def shortExitStep (p : StratParams) (s : StratState) (close : ℚ) :
    StratState × List Submission :=
  if s.position < 0 ∧ entryTruthy s.entry_price then
    let e := s.entry_price.getD 0
    if close ≤ e * (1 - p.target) then
      ({ s with order := some OrderSide.buy }, [Submission.buyProfitExit])
    else if e * (1 + p.stop_loss) ≤ close then
      ({ s with order := some OrderSide.buy }, [Submission.buyStopExit])
    else (s, [])
  else (s, [])

/-- `SmaTargetStopStrategy.next` (backtest.py lines 71-113) for one bar
with crossover indicator value `cross` and closing price `close`.
Returns the updated state and the list of order submissions made on the
bar.  Structure of the source: an early return while `self.order` is
set; entry branches (guarded by `not self.position`) each ending in
`return`; otherwise the long-exit block runs and then the short-exit
block runs on the resulting state (the source does not re-check
`self.order` between the two blocks, but their position guards are
mutually exclusive). -/
def nextBar (p : StratParams) (s : StratState) (cross close : ℚ) :
    StratState × List Submission :=
  if s.order.isSome then (s, [])
  else if s.position = 0 ∧ 0 < cross then
    ({ s with order := some OrderSide.buy }, [Submission.buyEntry])
  else if s.position = 0 ∧ cross < 0 then
    ({ s with order := some OrderSide.sell }, [Submission.sellEntry])
  else
    let r1 := longExitStep p s close
    let r2 := shortExitStep p r1.1 close
    (r2.1, r1.2 ++ r2.2)

/-- Iterated bar processing: feed a list of `(crossover, close)` bars to
`nextBar` in order, with no order notifications delivered in between,
collecting all submissions. -/
def runBars (p : StratParams) : StratState → List (ℚ × ℚ) →
    StratState × List Submission
  | s, [] => (s, [])
  | s, bar :: bars =>
      let r := nextBar p s bar.1 bar.2
      let rest := runBars p r.1 bars
      (rest.1, r.2 ++ rest.2)

/-- The summary computation of backtest.py line 190:
`win_probability = (winning_trades / total_trades * 100) if
total_trades > 0 else 0`. -/
def win_probability (winning_trades total_trades : ℕ) : ℚ :=
  if 0 < total_trades then
    (winning_trades : ℚ) / (total_trades : ℚ) * 100
  else 0

/-- The chunk-generation while loop of historical_data_fetch.py lines
73-95, restricted to the date ranges it produces: starting from
`current_date` and while `current_date < end_date`, emit the range
`(current_date, current_date + timedelta(days=30))` and advance
`current_date` by 30 days.  Dates are day numbers. -/
def genChunks (current endDay : ℕ) : List (ℕ × ℕ) :=
  if h : current < endDay then
    (current, current + 30) :: genChunks (current + 30) endDay
  else []
termination_by endDay - current
decreasing_by omega

/-- The datetime window actually requested for a chunk `(from, to)`
(historical_data_fetch.py lines 55-56): `fromdate = "{from} 09:00"` and
`todate = "{to} 15:30"`, expressed in minutes since midnight of day 0
(09:00 = 540, 15:30 = 930).  The request window is the inclusive
interval between the two endpoints. -/
def requestWindow (c : ℕ × ℕ) : ℕ × ℕ :=
  (c.1 * 1440 + 540, c.2 * 1440 + 930)

/-- One raw field of a provider record: the combined date-time string or
a numeric OHLCV value. -/
inductive RVal
  | str : List Char → RVal
  | num : ℚ → RVal
deriving DecidableEq

/-- Pandas `Series.str.split('T', expand=True)` on one string: split on
every occurrence of the character. -/
def splitOnChar (c : Char) : List Char → List (List Char)
  | [] => [[]]
  | x :: xs =>
      if x = c then [] :: splitOnChar c xs
      else
        match splitOnChar c xs with
        | [] => [[x]]
        | r :: rs => (x :: r) :: rs

/-- The maximal run matched by the regex group `[^+]+` starting at the
head of the list, together with the remainder. -/
def extractRun : List Char → List Char × List Char
  | [] => ([], [])
  | c :: xs =>
      if c = '+' then ([], c :: xs)
      else
        let pr := extractRun xs
        (c :: pr.1, pr.2)

/-- The optional regex group `(\+\d{2}:\d{2})?` tried at the current
position: matches a literal plus, two digits, a colon and two digits,
consuming nothing on failure. -/
def matchTz : List Char → Option (List Char)
  | '+' :: a :: b :: ':' :: c :: d :: _ =>
      if a.isDigit ∧ b.isDigit ∧ c.isDigit ∧ d.isDigit then
        some ('+' :: a :: b :: ':' :: c :: d :: [])
      else none
  | _ => none

/-- Pandas `Series.str.extract(r'([^+]+)(\+\d{2}:\d{2})?')` on one
string: `re.search` finds the leftmost maximal run of non-plus
characters (skipping any leading plus signs at which the first group
cannot start); the optional timezone group is then tried right after
the run.  `none` models the no-match (NaN) row. -/
def extractGroups : List Char → Option (List Char × Option (List Char))
  | [] => none
  | c :: xs =>
      if c = '+' then extractGroups xs
      else
        let pr := extractRun (c :: xs)
        some (pr.1, matchTz pr.2)

/-- The two-stage timestamp normalization shared by
historical_data_fetch.py lines 87-88 and main.py lines 73-76: the
combined string is split on `'T'` and the result is assigned to the two
columns `Date` and `Time` (which requires exactly two pieces, otherwise
pandas raises); the `Time` piece is then split by
`str.extract(r'([^+]+)(\+\d{2}:\d{2})?')` into `Time` and `Timezone`,
where a failed extract leaves NaN (`none`) fields. -/
def splitTimestamp (dt : List Char) :
    Option (List Char × Option (List Char) × Option (List Char)) :=
  match splitOnChar 'T' dt with
  | [d, rest] =>
      match extractGroups rest with
      | some (t, tz) => some (d, some t, tz)
      | none => some (d, none, none)
  | _ => none

/-- Re-joining the three split fields of a timestamp:
date ++ 'T' ++ time ++ timezone (an absent timezone contributes
nothing). -/
def rejoinTimestamp (d t : List Char) (tz : Option (List Char)) :
    List Char :=
  d ++ 'T' :: (t ++ tz.getD [])

/-- Failure conditions of the per-chunk normalization, which in the
source are uncaught pandas exceptions: `badShape` when a record does
not have the six-field shape demanded by
`pd.DataFrame(data, columns=["DateTime","Open","High","Low","Close",
"Volume"])`, and `badDateTime` when the `'T'`-split of the combined
timestamp does not produce exactly the two columns `Date` and `Time`. -/
inductive NormError
  | badShape
  | badDateTime
deriving DecidableEq, Repr

/-- One row of the normalized frame after
`df = df[['Date','Time','Timezone','Open','High','Low','Close']]`
(historical_data_fetch.py line 89): the `Volume` column of the raw
record is not selected and is dropped.  `opn` is the source column
`Open` (a Lean keyword prevents using that name).  `none` in `time` or
`timezone` models a NaN produced by a failed extract. -/
structure NormRow where
  date : List Char
  time : Option (List Char)
  timezone : Option (List Char)
  opn : ℚ
  high : ℚ
  low : ℚ
  close : ℚ
deriving DecidableEq

/-- Normalization of one raw record (historical_data_fetch.py lines
86-89): the record must be the six fields DateTime, Open, High, Low,
Close, Volume; the timestamp is split as in `splitTimestamp`; the
volume value is dropped by the final column selection. -/
def normalizeRecord (r : List RVal) : Except NormError NormRow :=
  match r with
  | [RVal.str dt, RVal.num o, RVal.num h, RVal.num l, RVal.num c,
     RVal.num _v] =>
      match splitTimestamp dt with
      | some (d, t, tz) => Except.ok ⟨d, t, tz, o, h, l, c⟩
      | none => Except.error NormError.badDateTime
  | _ => Except.error NormError.badShape

/-- Normalization of a whole fetched batch: every record is normalized;
the first failing record raises (the source has no handler around the
frame operations, so the error propagates). -/
def normalizeBatch : List (List RVal) → Except NormError (List NormRow)
  | [] => Except.ok []
  | r :: rs =>
      match normalizeRecord r with
      | Except.ok row =>
          match normalizeBatch rs with
          | Except.ok rows => Except.ok (row :: rows)
          | Except.error e => Except.error e
      | Except.error e => Except.error e

/-- The provider response object, when one is returned at all: it may or
may not carry a `"data"` field, and that field may be an empty list. -/
structure ApiResponse where
  dataField : Option (List (List RVal))
deriving DecidableEq

/-- Outcome of one `smartApi.getCandleData` call inside the retry loop:
either an exception (caught by the `except` clause) or a response,
which may itself be `None`. -/
inductive AttemptResult
  | exn : AttemptResult
  | resp : Option ApiResponse → AttemptResult

/-- The success test of one attempt (historical_data_fetch.py lines
60-67): an attempt yields data only when no exception was raised, the
response is truthy, contains a `"data"` key, and that field is a
non-empty list; every other outcome falls through to the next
attempt. -/
def attemptOk : AttemptResult → Option (List (List RVal))
  | AttemptResult.exn => none
  | AttemptResult.resp none => none
  | AttemptResult.resp (some r) =>
      match r.dataField with
      | none => none
      | some [] => none
      | some (x :: xs) => some (x :: xs)

/-- The `for attempt in range(3)` retry loop over a given list of
attempt indices: return the first successful attempt's data, or `None`
after the list is exhausted. -/
def fetchRetry (oracle : ℕ → AttemptResult) :
    List ℕ → Option (List (List RVal))
  | [] => none
  | i :: rest =>
      match attemptOk (oracle i) with
      | some d => some d
      | none => fetchRetry oracle rest

/-- `fetch_historical_data` (historical_data_fetch.py lines 50-71):
up to 3 attempts, `None` if all fail.  The remote source is modelled by
an oracle giving the outcome of each attempt. -/
def fetch_historical_data (oracle : ℕ → AttemptResult) :
    Option (List (List RVal)) :=
  fetchRetry oracle [0, 1, 2]

/-- The accumulators of the main loop: `all_data` (the list of
normalized per-chunk frames, later concatenated) and `missing_dates`
(the chunks whose fetch failed). -/
structure RunState where
  all_data : List (List NormRow)
  missing_dates : List (ℕ × ℕ)
deriving DecidableEq

/-- One iteration of the main loop of historical_data_fetch.py lines
73-95 for chunk `c`: fetch with retry; on data, normalize and append
the frame to `all_data` (a normalization failure is an uncaught
exception and aborts the whole run); on `None`, append the chunk to
`missing_dates`.  The per-chunk oracle gives each attempt's outcome. -/
def processChunk (oracle : ℕ × ℕ → ℕ → AttemptResult) (c : ℕ × ℕ)
    (st : RunState) : Except NormError RunState :=
  match fetch_historical_data (oracle c) with
  | some data =>
      match normalizeBatch data with
      | Except.ok rows =>
          Except.ok { st with all_data := st.all_data ++ [rows] }
      | Except.error e => Except.error e
  | none =>
      Except.ok { st with missing_dates := st.missing_dates ++ [c] }

/-- The main loop over all chunks, threading the accumulators; an
uncaught normalization exception stops the loop and propagates. -/
def processChunks (oracle : ℕ × ℕ → ℕ → AttemptResult) :
    List (ℕ × ℕ) → RunState → Except NormError RunState
  | [], st => Except.ok st
  | c :: cs, st =>
      match processChunk oracle c st with
      | Except.ok st2 => processChunks oracle cs st2
      | Except.error e => Except.error e

/-- A whole backfill run over a chunk list, starting from the empty
accumulators `all_data = []`, `missing_dates = []`. -/
def runBackfill (oracle : ℕ × ℕ → ℕ → AttemptResult)
    (chunks : List (ℕ × ℕ)) : Except NormError RunState :=
  processChunks oracle chunks ⟨[], []⟩

/-- The merged series persisted at the end of a run:
`pd.concat(all_data, ignore_index=True)`. -/
def mergedSeries (st : RunState) : List NormRow :=
  st.all_data.flatten

/-- One row of the data frame `load_data` returns for backtrader:
lowercase OHLCV columns (`opn` stands for the source column `open`,
a Lean keyword). -/
structure BtRow where
  opn : ℚ
  high : ℚ
  low : ℚ
  close : ℚ
  volume : ℚ
deriving DecidableEq, Repr

/-- `load_data` (backtest.py lines 119-146) restricted to its column
logic: the OHLC columns are renamed to lowercase; if the CSV has no
`Volume` column (`volumeColumn = none`) a dummy `volume` equal to `0`
is added to every row, otherwise the `Volume` column is renamed to
`volume` and kept row by row. -/
def load_data (rows : List NormRow) (volumeColumn : Option (List ℚ)) :
    List BtRow :=
  match volumeColumn with
  | none =>
      rows.map (fun r => ⟨r.opn, r.high, r.low, r.close, 0⟩)
  | some vs =>
      (rows.zip vs).map (fun rv =>
        ⟨rv.1.opn, rv.1.high, rv.1.low, rv.1.close, rv.2⟩)

/-- The composition the persisted artifacts realize: the fetch-side
normalizer (which drops the `Volume` column, historical_data_fetch.py
line 89) followed by `load_data` reading the persisted file, which
therefore has no `Volume` column. -/
def backfillThenLoad (batch : List (List RVal)) :
    Except NormError (List BtRow) :=
  match normalizeBatch batch with
  | Except.ok rows => Except.ok (load_data rows none)
  | Except.error e => Except.error e

/-- Properties of the chunk list generated for the span `[s, e)`: the
first chunk starts at `s`; every chunk is exactly 30 days long;
consecutive chunks are contiguous; the half-open day ranges are
pairwise non-overlapping; every day of the span is covered by some
chunk; no chunk ends 30 or more days past `e`; some chunk reaches `e`;
and the requested datetime windows of consecutive chunks overlap (the
session of the shared boundary day is requested by both). -/
def chunkListSpec (s e : ℕ) (cs : List (ℕ × ℕ)) : Prop :=
  cs.head? = some (s, s + 30) ∧
  (∀ p ∈ cs, p.2 = p.1 + 30) ∧
  List.Chain' (fun a b => a.2 = b.1) cs ∧
  List.Pairwise (fun a b => a.2 ≤ b.1) cs ∧
  (∀ d, s ≤ d → d < e → ∃ p ∈ cs, p.1 ≤ d ∧ d < p.2) ∧
  (∀ p ∈ cs, p.2 < e + 30) ∧
  (∃ p ∈ cs, e ≤ p.2) ∧
  List.Chain' (fun a b => (requestWindow b).1 ≤ (requestWindow a).2) cs

/-- An oracle whose every attempt raises (models a provider that is
down). -/
def failOracle : ℕ × ℕ → ℕ → AttemptResult :=
  fun _ _ => AttemptResult.exn

/-- An oracle that answers every attempt with a single five-field
record: the fetch succeeds, but the record does not have the six-field
shape the normalization demands. -/
def malformedOracle : ℕ × ℕ → ℕ → AttemptResult :=
  fun _ _ =>
    AttemptResult.resp (some ⟨some [[RVal.num 1, RVal.num 2, RVal.num 3,
      RVal.num 4, RVal.num 5]]⟩)

/- ------------------------------------------------------------------
   Helper lemmas about the strategy state machine.
   ------------------------------------------------------------------ -/

theorem nextBar_pending (p : StratParams) (s : StratState)
    (cross close : ℚ) (h : s.order ≠ none) :
    nextBar p s cross close = (s, []) := by
  cases ho : s.order with
  | none => exact absurd ho h
  | some v => simp [nextBar, ho]

theorem runBars_pending (p : StratParams) (s : StratState)
    (bars : List (ℚ × ℚ)) (h : s.order ≠ none) :
    runBars p s bars = (s, []) := by
  induction bars with
  | nil => rfl
  | cons b bs ih =>
      simp [runBars, nextBar_pending p s b.1 b.2 h, ih]

theorem longExitStep_fst_position (p : StratParams) (s : StratState)
    (close : ℚ) : (longExitStep p s close).1.position = s.position := by
  simp only [longExitStep]
  split_ifs <;> rfl

theorem longExitStep_of_nonpos (p : StratParams) (s : StratState)
    (close : ℚ) (h : ¬ 0 < s.position) :
    longExitStep p s close = (s, []) := by
  simp only [longExitStep]
  rw [if_neg (fun hc => h hc.1)]

theorem shortExitStep_of_nonneg (p : StratParams) (s : StratState)
    (close : ℚ) (h : ¬ s.position < 0) :
    shortExitStep p s close = (s, []) := by
  simp only [shortExitStep]
  rw [if_neg (fun hc => h hc.1)]

theorem longExitStep_len (p : StratParams) (s : StratState) (close : ℚ) :
    (longExitStep p s close).2.length ≤ 1 := by
  simp only [longExitStep]
  split_ifs <;> simp

theorem shortExitStep_len (p : StratParams) (s : StratState) (close : ℚ) :
    (shortExitStep p s close).2.length ≤ 1 := by
  simp only [shortExitStep]
  split_ifs <;> simp

/- ------------------------------------------------------------------
   Helper lemmas about chunk generation.
   ------------------------------------------------------------------ -/

theorem genChunks_unfold (s e : ℕ) :
    genChunks s e =
      if s < e then (s, s + 30) :: genChunks (s + 30) e else [] := by
  rw [genChunks]
  by_cases h : s < e <;> simp [h]

theorem genChunks_closed_aux :
    ∀ (n s e : ℕ), e - s ≤ n →
      genChunks s e =
        (List.range ((e - s + 29) / 30)).map
          (fun i => (s + 30 * i, s + 30 * i + 30)) := by
  intro n
  induction n with
  | zero =>
      intro s e hle
      have hns : ¬ s < e := by omega
      have hz : (e - s + 29) / 30 = 0 := by omega
      rw [genChunks_unfold, if_neg hns, hz]
      rfl
  | succ n ih =>
      intro s e hle
      by_cases hs : s < e
      · have hk : (e - s + 29) / 30 = (e - (s + 30) + 29) / 30 + 1 := by
          omega
        rw [genChunks_unfold, if_pos hs, ih (s + 30) e (by omega), hk,
          List.range_succ_eq_map]
        simp only [List.map_cons, List.map_map, Nat.mul_zero,
          Nat.add_zero]
        congr 1
        apply List.map_congr_left
        intro i _
        simp only [Function.comp_apply, Prod.mk.injEq]
        omega
      · have hz : (e - s + 29) / 30 = 0 := by omega
        rw [genChunks_unfold, if_neg hs, hz]
        rfl

theorem genChunks_closed (s e : ℕ) :
    genChunks s e =
      (List.range ((e - s + 29) / 30)).map
        (fun i => (s + 30 * i, s + 30 * i + 30)) :=
  genChunks_closed_aux (e - s) s e le_rfl

/- ------------------------------------------------------------------
   Claim theorems about the strategy.
   ------------------------------------------------------------------ -/

/-- C1 (counterexample): a completed sell fill that closes a long
position of size 1 (the position becomes flat) leaves `entry_price`
set to the exit fill price `101` — it is not cleared, contradicting
the claim that an exit fill makes `entry_price` unset. -/
theorem C1_counterexample :
    (onFill ⟨some OrderSide.sell, some 100, 1⟩ OrderSide.sell 1 101).position
        = 0 ∧
    (onFill ⟨some OrderSide.sell, some 100, 1⟩ OrderSide.sell 1 101).order
        = none ∧
    (onFill ⟨some OrderSide.sell, some 100, 1⟩ OrderSide.sell 1 101).entry_price
        = some 101 ∧
    some (101 : ℚ) ≠ (none : Option ℚ) := by
  refine ⟨by decide, rfl, rfl, by simp⟩

/-- C1 (amended): on every completed order fill, the pending-order
marker is cleared and `entry_price` is set to the executed fill price —
for exit fills as well, so `entry_price` is never cleared; the position
(updated by the broker) becomes long/short on an entry fill from flat
and flat on a fill that closes the whole position. -/
theorem C1_amended_fill :
    ∀ (s : StratState) (side : OrderSide) (qty : ℤ) (price : ℚ),
      (onFill s side qty price).order = none ∧
      (onFill s side qty price).entry_price = some price ∧
      (onFill s side qty price).position =
        s.position + (match side with
          | OrderSide.buy => qty
          | OrderSide.sell => -qty) ∧
      (s.position = 0 → side = OrderSide.buy → 0 < qty →
        0 < (onFill s side qty price).position) ∧
      (s.position = 0 → side = OrderSide.sell → 0 < qty →
        (onFill s side qty price).position < 0) ∧
      (side = OrderSide.sell → s.position = qty →
        (onFill s side qty price).position = 0) ∧
      (side = OrderSide.buy → s.position = -qty →
        (onFill s side qty price).position = 0) := by
  intro s side qty price
  cases side <;>
    simp [onFill, notify_order] <;> omega

/-- C1 (witness for the amended theorem): a buy entry fill of size 1
from flat at price 100 clears the marker, records `entry_price = 100`
and leaves a long position. -/
theorem C1_witness :
    (onFill ⟨some OrderSide.buy, none, 0⟩ OrderSide.buy 1 100).order
        = none ∧
    (onFill ⟨some OrderSide.buy, none, 0⟩ OrderSide.buy 1 100).entry_price
        = some 100 ∧
    0 < (onFill ⟨some OrderSide.buy, none, 0⟩ OrderSide.buy 1 100).position :=
  ⟨(C1_amended_fill ⟨some OrderSide.buy, none, 0⟩ OrderSide.buy 1 100).1,
   (C1_amended_fill ⟨some OrderSide.buy, none, 0⟩ OrderSide.buy 1 100).2.1,
   (C1_amended_fill ⟨some OrderSide.buy, none, 0⟩ OrderSide.buy 1
      100).2.2.2.1 rfl rfl (by norm_num)⟩

/-- C2: if the pending-order marker is set at the start of a bar, `next`
submits nothing and changes nothing on that bar; and on every bar at
most one order submission occurs. -/
theorem C2_single_submission :
    ∀ (p : StratParams) (s : StratState) (cross close : ℚ),
      (s.order ≠ none → nextBar p s cross close = (s, [])) ∧
      (nextBar p s cross close).2.length ≤ 1 := by
  intro p s cross close
  refine ⟨nextBar_pending p s cross close, ?_⟩
  by_cases ho : s.order = none
  · simp only [nextBar]
    split_ifs with h1 h2 h3
    · simp
    · simp
    · simp
    · by_cases hp : 0 < s.position
      · have hns : ¬ (longExitStep p s close).1.position < 0 := by
          rw [longExitStep_fst_position]; omega
        simp only [shortExitStep_of_nonneg _ _ _ hns]
        simpa using longExitStep_len p s close
      · simp only [longExitStep_of_nonpos _ _ _ hp]
        simpa using shortExitStep_len p s close
  · rw [nextBar_pending p s cross close ho]
    simp

/-- C2 (witness): with a pending buy order, a bar with a crossover
signal produces no submission and no state change; from a flat idle
state, a bar produces at most one submission. -/
theorem C2_witness :
    nextBar ⟨3/1000, 1/1000, 10, 50⟩ ⟨some OrderSide.buy, none, 0⟩ 1 100
        = (⟨some OrderSide.buy, none, 0⟩, []) ∧
    (nextBar ⟨3/1000, 1/1000, 10, 50⟩ ⟨none, none, 0⟩ 1 100).2.length ≤ 1 :=
  ⟨(C2_single_submission ⟨3/1000, 1/1000, 10, 50⟩
      ⟨some OrderSide.buy, none, 0⟩ 1 100).1 (by simp),
   (C2_single_submission ⟨3/1000, 1/1000, 10, 50⟩
      ⟨none, none, 0⟩ 1 100).2⟩

/-- C3: in a long position with a recorded (truthy) entry price and no
pending order, a bar on which both the profit-target condition and the
stop-loss condition hold exits through the profit-target branch, never
the stop branch; the short position logic is the exact mirror with the
target comparison evaluated first. -/
theorem C3_target_priority :
    ∀ (p : StratParams) (s : StratState) (cross close e : ℚ),
      s.order = none → s.entry_price = some e → e ≠ 0 →
      (0 < s.position →
        e * (1 + p.target) ≤ close → close ≤ e * (1 - p.stop_loss) →
        nextBar p s cross close =
          ({ s with order := some OrderSide.sell },
           [Submission.sellProfitExit])) ∧
      (s.position < 0 →
        close ≤ e * (1 - p.target) → e * (1 + p.stop_loss) ≤ close →
        nextBar p s cross close =
          ({ s with order := some OrderSide.buy },
           [Submission.buyProfitExit])) := by
  intro p s cross close e ho he hez
  have het : entryTruthy s.entry_price = true := by
    rw [he]; simp [entryTruthy, hez]
  constructor
  · intro hpos htgt _hstop
    have hno : ¬ (s.position = 0 ∧ 0 < cross) := fun hc => by omega
    have hno2 : ¬ (s.position = 0 ∧ cross < 0) := fun hc => by omega
    simp only [nextBar, ho, Option.isSome_none, Bool.false_eq_true,
      if_false, if_neg hno, if_neg hno2]
    have het2 : entryTruthy (some e) = true := by
      simp [entryTruthy, hez]
    have hl : longExitStep p s close =
        ({ s with order := some OrderSide.sell },
         [Submission.sellProfitExit]) := by
      simp only [longExitStep, he, het2, and_true, if_pos hpos,
        Option.getD_some, if_pos htgt]
    rw [hl]
    have hns : ¬ ({ s with order := some OrderSide.sell } :
        StratState).position < 0 := by simp; omega
    rw [shortExitStep_of_nonneg _ _ _ hns]
    rfl
  · intro hneg htgt _hstop
    have hno : ¬ (s.position = 0 ∧ 0 < cross) := fun hc => by omega
    have hno2 : ¬ (s.position = 0 ∧ cross < 0) := fun hc => by omega
    simp only [nextBar, ho, Option.isSome_none, Bool.false_eq_true,
      if_false, if_neg hno, if_neg hno2]
    have hnl : ¬ 0 < s.position := by omega
    rw [longExitStep_of_nonpos _ _ _ hnl]
    have het2 : entryTruthy (some e) = true := by
      simp [entryTruthy, hez]
    have hs : shortExitStep p s close =
        ({ s with order := some OrderSide.buy },
         [Submission.buyProfitExit]) := by
      simp only [shortExitStep, he, het2, and_true, if_pos hneg,
        Option.getD_some, if_pos htgt]
    rw [hs]
    rfl

/-- C3 (witness): with caller-overridden negative thresholds
`target = -1/100`, `stop_loss = -1/50` and entry price 100, the close
100 meets both the target and the stop condition of a long position
(100 ≥ 99 and 100 ≤ 102) and the bar exits via the profit branch; the
mirrored short case at the same prices exits via its profit branch. -/
theorem C3_witness :
    nextBar ⟨-(1/100), -(1/50), 10, 50⟩ ⟨none, some 100, 1⟩ 0 100 =
      (⟨some OrderSide.sell, some 100, 1⟩, [Submission.sellProfitExit]) ∧
    nextBar ⟨-(1/100), -(1/50), 10, 50⟩ ⟨none, some 100, -1⟩ 0 100 =
      (⟨some OrderSide.buy, some 100, -1⟩, [Submission.buyProfitExit]) :=
  ⟨(C3_target_priority ⟨-(1/100), -(1/50), 10, 50⟩ ⟨none, some 100, 1⟩
      0 100 100 rfl rfl (by norm_num)).1 (by norm_num)
      (by norm_num) (by norm_num),
   (C3_target_priority ⟨-(1/100), -(1/50), 10, 50⟩ ⟨none, some 100, -1⟩
      0 100 100 rfl rfl (by norm_num)).2 (by norm_num)
      (by norm_num) (by norm_num)⟩

/-- C7: a terminal order notification that is not `Completed` (for
example `Rejected` or `Canceled`) leaves the strategy state — in
particular the pending-order marker — unchanged; consequently, from any
state with the marker set and no later `Completed` notification, every
later bar is a no-op: no submission and no entry or exit decision is
ever made again. -/
theorem C7_rejected_order_blocks :
    (∀ (s : StratState) (side : OrderSide) (status : OrderStatus)
        (price : ℚ), status ≠ OrderStatus.Completed →
        notify_order s side status price = s) ∧
    (∀ (p : StratParams) (s : StratState) (bars : List (ℚ × ℚ)),
        s.order ≠ none → runBars p s bars = (s, [])) := by
  constructor
  · intro s side status price h
    simp only [notify_order, if_neg h]
  · intro p s bars h
    exact runBars_pending p s bars h

/-- C7 (witness): a `Rejected` notification leaves a pending-buy state
unchanged, and two subsequent bars with live crossover signals produce
no submissions and no state change. -/
theorem C7_witness :
    notify_order ⟨some OrderSide.buy, none, 0⟩ OrderSide.buy
        OrderStatus.Rejected 100 = ⟨some OrderSide.buy, none, 0⟩ ∧
    runBars ⟨3/1000, 1/1000, 10, 50⟩ ⟨some OrderSide.buy, none, 0⟩
        [(1, 100), (-1, 99)] = (⟨some OrderSide.buy, none, 0⟩, []) :=
  ⟨C7_rejected_order_blocks.1 ⟨some OrderSide.buy, none, 0⟩ OrderSide.buy
      OrderStatus.Rejected 100 (by decide),
   C7_rejected_order_blocks.2 ⟨3/1000, 1/1000, 10, 50⟩
      ⟨some OrderSide.buy, none, 0⟩ [(1, 100), (-1, 99)] (by simp)⟩

/-- C10: the reported win probability is
`winning / total * 100` when `total > 0` and `0` when `total = 0`; the
zero-trade case takes the `else` branch, so no division by zero is
performed. -/
theorem C10_win_probability_cases :
    (∀ w t : ℕ, 0 < t → win_probability w t = (w : ℚ) / (t : ℚ) * 100) ∧
    (∀ w : ℕ, win_probability w 0 = 0) := by
  constructor
  · intro w t ht
    simp [win_probability, ht]
  · intro w
    simp [win_probability]

/-- C10 (witness): 2 winning trades out of 4 give 50%, and zero closed
trades give 0. -/
theorem C10_witness :
    win_probability 2 4 = 50 ∧ win_probability 5 0 = 0 := by
  constructor
  · rw [C10_win_probability_cases.1 2 4 (by norm_num)]
    norm_num
  · exact C10_win_probability_cases.2 5

/- ------------------------------------------------------------------
   Claim theorems about the chunk partitioning (C4).
   ------------------------------------------------------------------ -/

/-- C4 (counterexample): for the master span of days `[0, 31)` the loop
generates the ranges `(0, 30)` and `(30, 60)`; the second chunk ends on
day 60, which is past the span end 31 (the loop never clamps
`next_date` to `end_date`), and the requested datetime windows of the
two chunks overlap: the second chunk's request starts at day 30, 09:00,
before the first chunk's request ends at day 30, 15:30.  Both parts of
the claim's parenthetical fail. -/
theorem C4_counterexample :
    genChunks 0 31 = [(0, 30), (30, 60)] ∧
    (31 : ℕ) < 60 ∧
    (requestWindow (30, 60)).1 ≤ (requestWindow (0, 30)).2 := by
  refine ⟨?_, by norm_num, by norm_num [requestWindow]⟩
  rw [genChunks_unfold]
  norm_num
  rw [genChunks_unfold]
  norm_num
  rw [genChunks_unfold]
  norm_num

/-- C4 (amended): for every non-empty master span of days `[s, e)`, the
generated chunk list starts at `s`, consists of contiguous,
pairwise-non-overlapping half-open day ranges of exactly 30 days each
(including the last), covers every day of the span, and its last chunk
may extend past the span end by up to 29 days (every chunk ends before
`e + 30` and some chunk reaches `e`); moreover the session-widened
request windows of consecutive chunks overlap on the shared boundary
day. -/
theorem C4_amended_chunks :
    ∀ s e : ℕ, s < e → chunkListSpec s e (genChunks s e) := by
  intro s e hse
  rw [genChunks_closed]
  have hk1 : 1 ≤ (e - s + 29) / 30 := by omega
  set k := (e - s + 29) / 30 with hkdef
  refine ⟨?_, ?_, ?_, ?_, ?_, ?_, ?_, ?_⟩
  · obtain ⟨m, hm⟩ : ∃ m, k = m + 1 := ⟨k - 1, by omega⟩
    rw [hm, List.range_succ_eq_map]
    simp
  · intro p hp
    obtain ⟨i, _, rfl⟩ := List.mem_map.mp hp
    rfl
  · rw [List.chain'_map]
    obtain ⟨m, hm⟩ : ∃ m, k = m + 1 := ⟨k - 1, by omega⟩
    rw [hm, List.chain'_range_succ]
    intro i _
    simp only
    omega
  · rw [List.pairwise_map]
    apply List.Pairwise.imp ?_ (List.pairwise_lt_range k)
    intro i j hij
    simp only
    omega
  · intro d hd1 hd2
    refine ⟨(s + 30 * ((d - s) / 30), s + 30 * ((d - s) / 30) + 30),
      List.mem_map.mpr ⟨(d - s) / 30,
        List.mem_range.mpr (by omega), rfl⟩, by omega, by omega⟩
  · intro p hp
    obtain ⟨i, hi, rfl⟩ := List.mem_map.mp hp
    rw [List.mem_range] at hi
    simp only
    omega
  · refine ⟨(s + 30 * (k - 1), s + 30 * (k - 1) + 30),
      List.mem_map.mpr ⟨k - 1, List.mem_range.mpr (by omega), rfl⟩, ?_⟩
    simp only
    omega
  · rw [List.chain'_map]
    obtain ⟨m, hm⟩ : ∃ m, k = m + 1 := ⟨k - 1, by omega⟩
    rw [hm, List.chain'_range_succ]
    intro i _
    simp only [requestWindow]
    omega

/-- C4 (witness for the amended theorem): the span `[0, 31)` is
non-empty and its generated chunk list satisfies all the amended
partition properties. -/
theorem C4_witness : 0 < 31 ∧ chunkListSpec 0 31 (genChunks 0 31) :=
  ⟨by norm_num, C4_amended_chunks 0 31 (by norm_num)⟩

/- ------------------------------------------------------------------
   Helper lemmas about the backfill main loop (C5, C6).
   ------------------------------------------------------------------ -/

theorem processChunk_missing_cases (oracle : ℕ × ℕ → ℕ → AttemptResult)
    (c : ℕ × ℕ) (st st2 : RunState)
    (h : processChunk oracle c st = Except.ok st2) :
    st2.missing_dates = st.missing_dates ∨
    st2.missing_dates = st.missing_dates ++ [c] := by
  unfold processChunk at h
  cases hf : fetch_historical_data (oracle c) with
  | none =>
      rw [hf] at h
      injection h with h2
      right
      rw [← h2]
  | some d =>
      rw [hf] at h
      cases hn : normalizeBatch d with
      | ok rows =>
          simp only [hn] at h
          injection h with h2
          left
          rw [← h2]
      | error e =>
          simp only [hn] at h
          exact absurd h (by simp)

theorem processChunks_count_of_not_mem (oracle : ℕ × ℕ → ℕ → AttemptResult)
    (c : ℕ × ℕ) :
    ∀ (chunks : List (ℕ × ℕ)) (st st2 : RunState), c ∉ chunks →
      processChunks oracle chunks st = Except.ok st2 →
      st2.missing_dates.count c = st.missing_dates.count c := by
  intro chunks
  induction chunks with
  | nil =>
      intro st st2 _ h
      injection h with h2
      rw [h2]
  | cons d cs ih =>
      intro st st2 hmem h
      unfold processChunks at h
      cases hstep : processChunk oracle d st with
      | error e =>
          rw [hstep] at h
          exact absurd h (by simp)
      | ok st1 =>
          rw [hstep] at h
          have hdc : d ≠ c := fun he => hmem (he ▸ List.mem_cons_self d cs)
          have hc1 : st1.missing_dates.count c = st.missing_dates.count c := by
            rcases processChunk_missing_cases oracle d st st1 hstep with
              he | he
            · rw [he]
            · rw [he, List.count_append]
              simp [List.count_cons, hdc]
          rw [← hc1]
          exact ih st1 st2 (fun hc => hmem (List.mem_cons_of_mem d hc)) h

theorem fetch_fails_of_attempts (oracle : ℕ → AttemptResult)
    (h : ∀ i, i < 3 → attemptOk (oracle i) = none) :
    fetch_historical_data oracle = none := by
  simp [fetch_historical_data, fetchRetry, h 0 (by norm_num),
    h 1 (by norm_num), h 2 (by norm_num)]

theorem processChunk_failed_fetch (oracle : ℕ × ℕ → ℕ → AttemptResult)
    (c : ℕ × ℕ) (st : RunState)
    (hf : fetch_historical_data (oracle c) = none) :
    processChunk oracle c st =
      Except.ok { st with missing_dates := st.missing_dates ++ [c] } := by
  simp [processChunk, hf]

theorem processChunks_count_one (oracle : ℕ × ℕ → ℕ → AttemptResult)
    (c : ℕ × ℕ) (hfail : ∀ i, i < 3 → attemptOk (oracle c i) = none) :
    ∀ (chunks : List (ℕ × ℕ)) (st st2 : RunState), chunks.count c = 1 →
      processChunks oracle chunks st = Except.ok st2 →
      st2.missing_dates.count c = st.missing_dates.count c + 1 := by
  intro chunks
  induction chunks with
  | nil =>
      intro st st2 hcount _
      simp at hcount
  | cons d cs ih =>
      intro st st2 hcount h
      unfold processChunks at h
      by_cases hdc : d = c
      · subst hdc
        have hnot : d ∉ cs := by
          rw [← List.count_eq_zero]
          have := List.count_cons_self d cs
          omega
        have hfetch : fetch_historical_data (oracle d) = none :=
          fetch_fails_of_attempts (oracle d) hfail
        rw [processChunk_failed_fetch oracle d st hfetch] at h
        have hrest := processChunks_count_of_not_mem oracle d cs
          { st with missing_dates := st.missing_dates ++ [d] } st2 hnot h
        rw [hrest]
        simp [List.count_append]
      · cases hstep : processChunk oracle d st with
        | error e =>
            rw [hstep] at h
            exact absurd h (by simp)
        | ok st1 =>
            rw [hstep] at h
            have hc1 : st1.missing_dates.count c =
                st.missing_dates.count c := by
              rcases processChunk_missing_cases oracle d st st1 hstep with
                he | he
              · rw [he]
              · rw [he, List.count_append]
                simp [List.count_cons, hdc]
            have hcs : cs.count c = 1 := by
              rw [List.count_cons] at hcount
              simp [hdc] at hcount
              omega
            rw [← hc1]
            exact ih st1 st2 hcs h

/- ------------------------------------------------------------------
   Claim theorems about chunk failure handling (C5, C6).
   ------------------------------------------------------------------ -/

/-- C5 (counterexample): a run over one chunk whose fetch succeeds but
whose single record has only five fields aborts with an uncaught
normalization error.  The claim says such a chunk is treated as a
failed fetch (escalating to the retry/missing-range path) and that a
backfill run always completes; instead the error propagates out of the
main loop, no missing range is recorded, and the run does not
complete. -/
theorem C5_counterexample :
    runBackfill malformedOracle [(0, 30)] =
      Except.error NormError.badShape := rfl

/-- C5 (amended): a chunk whose fetched records fail normalization does
not escalate to the retry/missing-range path: the normalization error
is uncaught and aborts the whole run at that chunk — the chunk is not
recorded as a missing range and the remaining chunks are never
attempted. -/
theorem C5_amended_norm_abort :
    ∀ (oracle : ℕ × ℕ → ℕ → AttemptResult) (c : ℕ × ℕ)
      (cs : List (ℕ × ℕ)) (st : RunState) (d : List (List RVal))
      (e : NormError),
      fetch_historical_data (oracle c) = some d →
      normalizeBatch d = Except.error e →
      processChunks oracle (c :: cs) st = Except.error e := by
  intro oracle c cs st d e hf hn
  simp [processChunks, processChunk, hf, hn]

/-- C5 (witness for the amended theorem): the malformed-record oracle
makes the fetch succeed with a five-field record, its normalization
errors, and the run over that chunk aborts with the error. -/
theorem C5_witness :
    fetch_historical_data (malformedOracle (0, 30)) =
      some [[RVal.num 1, RVal.num 2, RVal.num 3, RVal.num 4,
        RVal.num 5]] ∧
    normalizeBatch [[RVal.num 1, RVal.num 2, RVal.num 3, RVal.num 4,
      RVal.num 5]] = Except.error NormError.badShape ∧
    processChunks malformedOracle [(0, 30)] ⟨[], []⟩ =
      Except.error NormError.badShape :=
  ⟨rfl, rfl,
   C5_amended_norm_abort malformedOracle (0, 30) [] ⟨[], []⟩
     [[RVal.num 1, RVal.num 2, RVal.num 3, RVal.num 4, RVal.num 5]]
     NormError.badShape rfl rfl⟩

/-- C6: a chunk whose 3 fetch attempts all fail (each attempt failing
on a null response, a missing data field, an empty data field, or an
exception) yields `None` from `fetch_historical_data`; the loop then
appends the chunk's range to `missing_dates` (leaving `all_data`
untouched — zero candles contributed) and continues with an `ok`
result; and over a whole run in which the chunk occurs once, its range
ends up in `missing_dates` exactly once. -/
theorem C6_exhausted_chunk :
    (∀ oracle : ℕ → AttemptResult,
        (∀ i, i < 3 → attemptOk (oracle i) = none) →
        fetch_historical_data oracle = none) ∧
    (∀ (oracle : ℕ × ℕ → ℕ → AttemptResult) (c : ℕ × ℕ) (st : RunState),
        fetch_historical_data (oracle c) = none →
        processChunk oracle c st =
          Except.ok { st with
            missing_dates := st.missing_dates ++ [c] }) ∧
    (∀ (oracle : ℕ × ℕ → ℕ → AttemptResult) (c : ℕ × ℕ)
        (chunks : List (ℕ × ℕ)) (st2 : RunState),
        (∀ i, i < 3 → attemptOk (oracle c i) = none) →
        chunks.count c = 1 →
        runBackfill oracle chunks = Except.ok st2 →
        st2.missing_dates.count c = 1) := by
  refine ⟨fetch_fails_of_attempts, processChunk_failed_fetch, ?_⟩
  intro oracle c chunks st2 hfail hcount hrun
  have := processChunks_count_one oracle c hfail chunks ⟨[], []⟩ st2
    hcount hrun
  simpa using this

/-- C6 (witness): with an oracle whose every attempt raises, the fetch
for chunk `(0, 30)` returns `None`, the loop records the chunk as
missing while contributing no candles, and a one-chunk run ends with
the chunk counted once in `missing_dates`. -/
theorem C6_witness :
    fetch_historical_data (failOracle (0, 30)) = none ∧
    processChunk failOracle (0, 30) ⟨[], []⟩ =
      Except.ok ⟨[], [(0, 30)]⟩ ∧
    (List.count (0, 30) [(0, 30)] : ℕ) = 1 :=
  ⟨C6_exhausted_chunk.1 (failOracle (0, 30)) (fun _ _ => rfl),
   C6_exhausted_chunk.2.1 failOracle (0, 30) ⟨[], []⟩ rfl,
   C6_exhausted_chunk.2.2 failOracle (0, 30) [(0, 30)] ⟨[], [(0, 30)]⟩
     (fun _ _ => rfl) (by decide) rfl⟩

/- ------------------------------------------------------------------
   Helper lemmas about the timestamp normalizer (C8, C9).
   ------------------------------------------------------------------ -/

theorem splitOnChar_of_not_mem (c : Char) (l : List Char) (h : c ∉ l) :
    splitOnChar c l = [l] := by
  induction l with
  | nil => rfl
  | cons x xs ih =>
      have hx : ¬ (x = c) :=
        fun he => h (List.mem_cons.mpr (Or.inl he.symm))
      have ih2 := ih (fun hc => h (List.mem_cons_of_mem x hc))
      simp only [splitOnChar, if_neg hx, ih2]

theorem splitOnChar_append (c : Char) (d r : List Char) (hd : c ∉ d) :
    splitOnChar c (d ++ c :: r) = d :: splitOnChar c r := by
  induction d with
  | nil => simp [splitOnChar]
  | cons x xs ih =>
      have hx : ¬ (x = c) :=
        fun he => hd (List.mem_cons.mpr (Or.inl he.symm))
      have ih2 := ih (fun hc => hd (List.mem_cons_of_mem x hc))
      simp only [List.cons_append, splitOnChar, if_neg hx,
        List.append_eq, ih2]

theorem extractRun_no_plus (t : List Char) (h : '+' ∉ t) :
    extractRun t = (t, []) := by
  induction t with
  | nil => rfl
  | cons x xs ih =>
      have hx : ¬ (x = '+') :=
        fun he => h (List.mem_cons.mpr (Or.inl he.symm))
      have ih2 := ih (fun hc => h (List.mem_cons_of_mem x hc))
      simp only [extractRun, if_neg hx, ih2]

theorem extractRun_append_plus (t r : List Char) (h : '+' ∉ t) :
    extractRun (t ++ '+' :: r) = (t, '+' :: r) := by
  induction t with
  | nil => simp [extractRun]
  | cons x xs ih =>
      have hx : ¬ (x = '+') :=
        fun he => h (List.mem_cons.mpr (Or.inl he.symm))
      have ih2 := ih (fun hc => h (List.mem_cons_of_mem x hc))
      simp only [List.cons_append, extractRun, if_neg hx,
        List.append_eq, ih2]

theorem extractGroups_with_tz (t r : List Char) (hp : '+' ∉ t)
    (hne : t ≠ []) :
    extractGroups (t ++ '+' :: r) = some (t, matchTz ('+' :: r)) := by
  cases t with
  | nil => exact absurd rfl hne
  | cons x xs =>
      have hx : ¬ (x = '+') :=
        fun he => hp (List.mem_cons.mpr (Or.inl he.symm))
      have hrun := extractRun_append_plus (x :: xs) r hp
      rw [List.cons_append] at hrun
      simp only [List.cons_append, extractGroups, if_neg hx,
        List.append_eq, hrun]

theorem extractGroups_no_plus (t : List Char) (hp : '+' ∉ t)
    (hne : t ≠ []) :
    extractGroups t = some (t, none) := by
  cases t with
  | nil => exact absurd rfl hne
  | cons x xs =>
      have hx : ¬ (x = '+') :=
        fun he => hp (List.mem_cons.mpr (Or.inl he.symm))
      simp only [extractGroups, if_neg hx, extractRun_no_plus (x :: xs) hp]
      rfl

/- ------------------------------------------------------------------
   Claim theorems about the normalizer (C8, C9).
   ------------------------------------------------------------------ -/

/-- C8 (counterexample): a raw record carrying source volume 100 is
accepted by the fetch-side normalizer, but after its output is loaded
by `load_data` (the persisted file has no `Volume` column, because the
normalizer's final column selection drops it) the resulting candle has
volume 0, not the source volume 100. -/
theorem C8_counterexample :
    backfillThenLoad [[RVal.str (("2025-01-05T09:15:00+05:30").toList),
      RVal.num 1, RVal.num 2, RVal.num 3, RVal.num 4, RVal.num 100]] =
      Except.ok [⟨1, 2, 3, 4, 0⟩] ∧
    (0 : ℚ) ≠ 100 := by
  refine ⟨?_, by norm_num⟩
  rfl

/-- C8 (amended): every candle produced by `load_data` has a volume
field; when the CSV has no `Volume` column the volume of every candle
is the constant 0, and when a `Volume` column of matching length is
present it is kept row by row; the fetch-side normalizer itself
discards the source volume (its result does not depend on the volume
field at all), so candles that went through the backfill pipeline
always carry volume 0 regardless of the source volume. -/
theorem C8_amended_volume :
    (∀ (rows : List NormRow) (b : BtRow),
        b ∈ load_data rows none → b.volume = 0) ∧
    (∀ (rows : List NormRow) (vs : List ℚ), vs.length = rows.length →
        (load_data rows (some vs)).map (fun b => b.volume) = vs) ∧
    (∀ (dt : List Char) (o h l c v : ℚ),
        normalizeRecord [RVal.str dt, RVal.num o, RVal.num h, RVal.num l,
          RVal.num c, RVal.num v] =
        normalizeRecord [RVal.str dt, RVal.num o, RVal.num h, RVal.num l,
          RVal.num c, RVal.num 0]) := by
  refine ⟨?_, ?_, ?_⟩
  · intro rows b hb
    simp only [load_data, List.mem_map] at hb
    obtain ⟨r, _, rfl⟩ := hb
    rfl
  · intro rows vs hlen
    simp only [load_data, List.map_map]
    exact List.map_snd_zip rows vs (by omega)
  · intro dt o h l c v
    rfl

/-- C8 (witness for the amended theorem): a one-row CSV with a `Volume`
column keeps the source volume 7. -/
theorem C8_witness :
    (load_data [⟨[], none, none, 1, 2, 3, 4⟩] (some [7])).map
      (fun b => b.volume) = [7] :=
  C8_amended_volume.2.1 [⟨[], none, none, 1, 2, 3, 4⟩] [7] rfl

/-- C9: for a combined timestamp of the form date ++ 'T' ++ time ++
'+HH:MM' (date free of 'T', time nonempty and free of 'T' and '+', the
offset two digits, colon, two digits), the normalizer's split yields
exactly the date, the time-of-day, and the timezone offset — so
re-joining the three fields reconstructs the original string — and
when the offset suffix is absent the timezone field is left absent
(NaN), not defaulted. -/
theorem C9_timestamp_roundtrip :
    ∀ (d t : List Char) (a b x y : Char),
      'T' ∉ d → 'T' ∉ t → '+' ∉ t → t ≠ [] →
      a.isDigit = true → b.isDigit = true →
      x.isDigit = true → y.isDigit = true →
      (splitTimestamp (rejoinTimestamp d t
          (some ('+' :: a :: b :: ':' :: x :: y :: []))) =
        some (d, some t, some ('+' :: a :: b :: ':' :: x :: y :: [])) ∧
       splitTimestamp (rejoinTimestamp d t none) =
        some (d, some t, none)) := by
  intro d t a b x y hTd hTt hpt htne ha hb hx hy
  constructor
  · have htz : 'T' ∉ (t ++ '+' :: a :: b :: ':' :: x :: y :: []) := by
      intro hmem
      rcases List.mem_append.mp hmem with h1 | h2
      · exact hTt h1
      · simp only [List.mem_cons, List.not_mem_nil, or_false] at h2
        rcases h2 with h | h | h | h | h | h
        · exact absurd h (by decide)
        · rw [← h] at ha
          exact absurd ha (by decide)
        · rw [← h] at hb
          exact absurd hb (by decide)
        · exact absurd h (by decide)
        · rw [← h] at hx
          exact absurd hx (by decide)
        · rw [← h] at hy
          exact absurd hy (by decide)
    simp only [splitTimestamp, rejoinTimestamp, Option.getD_some]
    rw [splitOnChar_append 'T' d _ hTd, splitOnChar_of_not_mem 'T' _ htz]
    simp only [extractGroups_with_tz t _ hpt htne]
    simp [matchTz, ha, hb, hx, hy]
  · simp only [splitTimestamp, rejoinTimestamp, Option.getD_none,
      List.append_nil]
    rw [splitOnChar_append 'T' d t hTd, splitOnChar_of_not_mem 'T' t hTt]
    simp [extractGroups_no_plus t hpt htne]

/-- C9 (witness): the spec's example timestamp
"2025-01-05T09:15:00+05:30" splits into date "2025-01-05", time
"09:15:00" and timezone "+05:30", and re-joining the fields gives back
the original string. -/
theorem C9_witness :
    splitTimestamp (("2025-01-05T09:15:00+05:30").toList) =
      some ((("2025-01-05").toList), some (("09:15:00").toList),
        some ('+' :: '0' :: '5' :: ':' :: '3' :: '0' :: [])) ∧
    rejoinTimestamp (("2025-01-05").toList) (("09:15:00").toList)
      (some ('+' :: '0' :: '5' :: ':' :: '3' :: '0' :: [])) =
      ("2025-01-05T09:15:00+05:30").toList := by
  have h := (C9_timestamp_roundtrip (("2025-01-05").toList)
    (("09:15:00").toList) '0' '5' '3' '0' (by decide) (by decide)
    (by decide) (by decide) (by decide) (by decide) (by decide)
    (by decide)).1
  have heq : rejoinTimestamp (("2025-01-05").toList)
      (("09:15:00").toList)
      (some ('+' :: '0' :: '5' :: ':' :: '3' :: '0' :: [])) =
      ("2025-01-05T09:15:00+05:30").toList := by decide
  constructor
  · rw [heq] at h
    exact h
  · exact heq

end AlgoTrading
